import Mathlib

/-!
# Verification of the subtitle pipeline of `brainrot-ai`

Shallow embedding of `backend/services/subtitleService.js`:

* the cue timer / serializer `createSmartSubtitles` (lines 96-147),
* the muxing primitives `burnSubtitlesIntoVideo` (181-296) and
  `addSoftSubtitles` (306-387), and
* the orchestration `processSubtitles` (398-497).

JavaScript strings are modelled as `List Char`, JavaScript numbers as `ℚ`
(the relevant arithmetic is exact: all constants are decimal literals).
The filesystem is an association list from paths to contents, and the
external ffmpeg engine is a parameter recording whether each rendering
mode succeeds and what it writes.
-/

namespace BrainrotAI

/-- JavaScript strings, modelled as lists of characters. -/
abbrev JStr := List Char

/-- The whitespace class `\s` of the word-splitting regexes (line 109, 119). -/
def isWS (c : Char) : Bool := c.isWhitespace

/-- The sentence-terminal character class `[.!?]` of the regex at line 98. -/
def isSentenceEnd (c : Char) : Bool := c = '.' || c = '!' || c = '?'

/-- Split a string at every character satisfying `p`.  JS `split(/[.!?]+/)`
collapses runs of separators, producing fewer empty pieces; since the source
immediately trims every piece and filters out the empty ones (lines 99-101),
splitting at every single separator character is extensionally equivalent
there (runs only contribute extra empty pieces, which the filter removes). -/
def splitOn (p : Char → Bool) : JStr → List JStr
  | [] => [[]]
  | c :: cs =>
    if p c then [] :: splitOn p cs
    else
      match splitOn p cs with
      | [] => [[c]]
      | piece :: rest => (c :: piece) :: rest

/-- JS `String.prototype.trim`: drop whitespace from both ends. -/
def jsTrim (s : JStr) : JStr :=
  ((s.dropWhile isWS).reverse.dropWhile isWS).reverse

/-- Lines 98-101: `scriptText.split(/[.!?]+/).map(s => s.trim()).filter(s => s.length > 0)`. -/
def splitSentences (scriptText : JStr) : List JStr :=
  ((splitOn isSentenceEnd scriptText).map jsTrim).filter (fun s => s ≠ [])

/-- Line 119: `sentence.split(/\s+/).length`.  For the trimmed non-empty
sentences this is applied to, the JS split on `/\s+/` yields exactly the
maximal whitespace-free words (no leading/trailing empty piece), which is
what counting the non-empty pieces of the single-character split computes. -/
def countWords (s : JStr) : Nat :=
  ((splitOn isWS s).filter (fun w => w ≠ [])).length

/-- Line 108: `const wordsPerMinute = 180`. -/
def wordsPerMinute : ℚ := 180

/-- The `format` parameter: `'srt'` or `'vtt'`. -/
inductive SubFormat where
  | srt
  | vtt
deriving DecidableEq, Repr

/-- JS `Math.min` on two numbers (line 121). -/
def jsMin (a b : ℚ) : ℚ := if a ≤ b then a else b

/-- JS truncating division semantics of `%`: `a % b = a - b * trunc(a / b)`. -/
def jsTrunc (q : ℚ) : ℤ := if 0 ≤ q then ⌊q⌋ else ⌈q⌉

/-- The JS remainder operator `%` on numbers. -/
def jsMod (a b : ℚ) : ℚ := a - b * (jsTrunc (a / b) : ℚ)

/-- `${i}` on an integer value. -/
def intToJStr (i : ℤ) : JStr := (toString i).toList

/-- JS `String.prototype.padStart(n, c)`. -/
def padStart (s : JStr) (n : Nat) (c : Char) : JStr :=
  List.replicate (n - s.length) c ++ s

/-- The timestamp template shared by both branches of `formatTime`
(lines 129-133), abstracted over the millisecond separator character. -/
def formatTimeSep (sep : Char) (seconds : ℚ) : JStr :=
  let hours : ℤ := ⌊seconds / 3600⌋
  let minutes : ℤ := ⌊jsMod seconds 3600 / 60⌋
  let secs : ℤ := ⌊jsMod seconds 60⌋
  let milliseconds : ℤ := ⌊jsMod seconds 1 * 1000⌋
  padStart (intToJStr hours) 2 '0' ++ [':'] ++
    padStart (intToJStr minutes) 2 '0' ++ [':'] ++
    padStart (intToJStr secs) 2 '0' ++ [sep] ++
    padStart (intToJStr milliseconds) 3 '0'

/-- `formatTime` (lines 123-134): decompose `seconds` into floored hours,
minutes, seconds, milliseconds; the two template strings of the source
differ only in the separator before the milliseconds. -/
def formatTime (format : SubFormat) (seconds : ℚ) : JStr :=
  if format = SubFormat.srt then formatTimeSep ',' seconds
  else formatTimeSep '.' seconds

/-- A caption cue: the values `currentTime`, `endTime`, `sentence` of one
iteration of the loop at lines 118-144. -/
structure Cue where
  start : ℚ
  endTime : ℚ
  text : JStr
deriving DecidableEq, Repr

/-- The timing part of the loop at lines 118-144: walk the sentences with a
running cursor, emitting one cue per sentence. -/
def smartCues (videoDuration : ℚ) : List JStr → ℚ → List Cue
  | [], _ => []
  | sentence :: rest, currentTime =>
    let words : ℚ := (countWords sentence : ℚ)
    let sentenceDuration := (words / wordsPerMinute) * 60 * 1.2
    let endTime := jsMin (currentTime + sentenceDuration) videoDuration
    ⟨currentTime, endTime, sentence⟩ :: smartCues videoDuration rest (endTime + 0.5)

/-- The body of `sentences.forEach` at lines 118-144, as a recursion over the
remaining sentences carrying `index` and `currentTime`. -/
def smartLoop (format : SubFormat) (videoDuration : ℚ) :
    List JStr → ℕ → ℚ → JStr
  | [], _, _ => []
  | sentence :: rest, index, currentTime =>
    let words : ℚ := (countWords sentence : ℚ)
    let sentenceDuration := (words / wordsPerMinute) * 60 * 1.2
    let endTime := jsMin (currentTime + sentenceDuration) videoDuration
    (if format = SubFormat.srt then intToJStr ((index : ℤ) + 1) ++ ['\n'] else []) ++
      formatTime format currentTime ++ " --> ".toList ++ formatTime format endTime ++ ['\n'] ++
      jsTrim sentence ++ ['\n', '\n'] ++
      smartLoop format videoDuration rest (index + 1) (endTime + 0.5)

/-- Line 115: the initial accumulator, `'WEBVTT\n\n'` for vtt, `''` for srt. -/
def header (format : SubFormat) : JStr :=
  if format = SubFormat.vtt then "WEBVTT\n\n".toList else []

/-- `createSmartSubtitles` (lines 96-147).  The computation of
`effectiveDuration` at lines 107-113 is omitted: its value is never read
(the loop clamps against `videoDuration` directly, line 121). -/
def createSmartSubtitles (scriptText : JStr) (videoDuration : ℚ)
    (format : SubFormat) : JStr :=
  let sentences := splitSentences scriptText
  if sentences = [] then
    (if format = SubFormat.srt then [] else "WEBVTT\n\n".toList)
  else
    header format ++ smartLoop format videoDuration sentences 0 0

/-- The serialized block of a single cue (lines 136-141): optional index
line (srt only), timestamp line, trimmed text, blank line. -/
def cueBlock (format : SubFormat) (index : ℕ) (cue : Cue) : JStr :=
  (if format = SubFormat.srt then intToJStr ((index : ℤ) + 1) ++ ['\n'] else []) ++
    formatTime format cue.start ++ " --> ".toList ++ formatTime format cue.endTime ++ ['\n'] ++
    jsTrim cue.text ++ ['\n', '\n']

/-- Serialize a cue sequence, numbering the cues from `index`. -/
def renderCues (format : SubFormat) : ℕ → List Cue → JStr
  | _, [] => []
  | index, cue :: rest => cueBlock format index cue ++ renderCues format (index + 1) rest

/-- The timestamp line of one cue, abstracted over the separator. -/
def tsLine (sep : Char) (cue : Cue) : JStr :=
  formatTimeSep sep cue.start ++ " --> ".toList ++ formatTimeSep sep cue.endTime

/-! ## The muxing layer

`burnSubtitlesIntoVideo`, `addSoftSubtitles` and `processSubtitles` interact
with the filesystem and the external ffmpeg engine.  The filesystem is an
association list from paths to file contents (`writeFileFS` shadows older
entries, so lookup sees the newest write).  The engine — an external
collaborator, not code of this repository — is a parameter recording, for
each rendering mode, whether the invocation succeeds (a failure stands for
any non-zero exit, crash, or timeout: 600 s for burn, 300 s for soft) and
what content a successful invocation writes to the output path. -/

/-- A file path. -/
abbrev FPath := String

/-- The filesystem: an association list from paths to file contents. -/
abbrev FS := List (FPath × JStr)

/-- `fs.existsSync`. -/
def existsSync (fs : FS) (p : FPath) : Bool := (fs.lookup p).isSome

/-- `fs.writeFile` / overwrite: the new entry shadows any older one. -/
def writeFileFS (fs : FS) (p : FPath) (content : JStr) : FS := (p, content) :: fs

/-- Read a file's contents, if the file exists. -/
def readFS (fs : FS) (p : FPath) : Option JStr := fs.lookup p

/-- Outcomes of the external ffmpeg engine, per rendering mode. -/
structure Engine where
  burnOk : Bool
  softOk : Bool
  burnOutput : JStr
  softOutput : JStr

/-- The errors the muxing layer can surface. -/
inductive SubErr where
  /-- `Video file not found: ...` (line 191 / 316). -/
  | videoNotFound (p : FPath)
  /-- `Subtitle file not found: ...` (line 197 / 322). -/
  | subtitleNotFound (p : FPath)
  /-- ffmpeg failure, crash or timeout (the rejections at lines 228, 252, 284 / 338, 374). -/
  | ffmpegError
  /-- `fs.copyFileSync` throwing because the source file is missing (line 454 / 477). -/
  | copyFailed (p : FPath)
deriving DecidableEq, Repr

/-- `burnSubtitlesIntoVideo` (lines 181-296): validate that the video and the
subtitle file exist (lines 189-199, in that order), then run the engine in
burn mode; on success the output file holds the engine's product and the
promise resolves with the output path, otherwise the promise rejects. -/
def burnSubtitlesIntoVideo (eng : Engine) (fs : FS)
    (videoPath subtitlePath outputPath : FPath) : FS × Except SubErr FPath :=
  if ¬ existsSync fs videoPath then (fs, Except.error (SubErr.videoNotFound videoPath))
  else if ¬ existsSync fs subtitlePath then (fs, Except.error (SubErr.subtitleNotFound subtitlePath))
  else if eng.burnOk then (writeFileFS fs outputPath eng.burnOutput, Except.ok outputPath)
  else (fs, Except.error SubErr.ffmpegError)

/-- `addSoftSubtitles` (lines 306-387): same validation (lines 313-324),
then the engine in soft-track mode. -/
def addSoftSubtitles (eng : Engine) (fs : FS)
    (videoPath subtitlePath outputPath : FPath) : FS × Except SubErr FPath :=
  if ¬ existsSync fs videoPath then (fs, Except.error (SubErr.videoNotFound videoPath))
  else if ¬ existsSync fs subtitlePath then (fs, Except.error (SubErr.subtitleNotFound subtitlePath))
  else if eng.softOk then (writeFileFS fs outputPath eng.softOutput, Except.ok outputPath)
  else (fs, Except.error SubErr.ffmpegError)

/-- The `subtitleType` option: `'hard'` (burned) or `'soft'` (separate track). -/
inductive SubType where
  | hard
  | soft
deriving DecidableEq, Repr

/-- The file extension of a subtitle format (the `format` string itself). -/
def fmtExt : SubFormat → String
  | SubFormat.srt => "srt"
  | SubFormat.vtt => "vtt"

/-- Line 423-424: `path.join(outputDir, videoId + '_subtitles.' + format)`. -/
def subtitleFilePath (outputDir videoId : FPath) (format : SubFormat) : FPath :=
  outputDir ++ "/" ++ videoId ++ "_subtitles." ++ fmtExt format

/-- Line 442: `path.join(outputDir, videoId + '_with_subtitles.mp4')`. -/
def outputVideoFilePath (outputDir videoId : FPath) : FPath :=
  outputDir ++ "/" ++ videoId ++ "_with_subtitles.mp4"

/-- The result object of `processSubtitles` (lines 430-434, extended at
lines 450/455/465/473/478).  The JS object has optional keys
`videoWithSubtitles` and — per the spec's result interface — `degraded`;
an absent key is `none`.  No statement in the source ever assigns the
`degraded` key, so the model carries the field to state claims about it. -/
structure SubtitleResult where
  subtitlePath : FPath
  subtitleContent : JStr
  format : SubFormat
  videoWithSubtitles : Option FPath := none
  degraded : Option Bool := none
deriving DecidableEq, Repr

/-- The rendering strategies the fallback chain can attempt. -/
inductive Strategy where
  | burn
  | soft
  | copy
deriving DecidableEq, Repr

/-- What a call to `processSubtitles` produces: the final filesystem, the
ordered list of rendering strategies that were attempted (one entry per
call to `burnSubtitlesIntoVideo`, `addSoftSubtitles`, `fs.copyFileSync`
in the order the control flow reaches them), and the value the promise
resolves with (or the error it rejects with). -/
structure ProcOutcome where
  fs : FS
  attempts : List Strategy
  result : Except SubErr SubtitleResult

/-- `processSubtitles` (lines 398-497).  Steps: generate the subtitle
content (line 418), save it (lines 423-427), build the result object
(lines 430-434); when `addToVideo` and a video path are given, run the
fallback chain of lines 437-482: for `'soft'`, try the soft track and on
error copy the original video; otherwise (`'hard'`), try the burn, on
error try the soft track, on error copy the original video.
`fs.copyFileSync` throws when the source video is missing; that exception
reaches the outer catch (line 492) and is re-thrown, so the call rejects. -/
def processSubtitles (eng : Engine) (fs : FS) (scriptText : JStr)
    (videoDuration : ℚ) (outputDir videoId : FPath) (format : SubFormat)
    (addToVideo : Bool) (videoPath : Option FPath) (subtitleType : SubType) :
    ProcOutcome :=
  let subtitleContent := createSmartSubtitles scriptText videoDuration format
  let subtitlePath := subtitleFilePath outputDir videoId format
  let fs1 := writeFileFS fs subtitlePath subtitleContent
  let base : SubtitleResult :=
    { subtitlePath := subtitlePath, subtitleContent := subtitleContent, format := format }
  match addToVideo, videoPath with
  | true, some vp =>
    let outPath := outputVideoFilePath outputDir videoId
    match subtitleType with
    | SubType.soft =>
      match addSoftSubtitles eng fs1 vp subtitlePath outPath with
      | (fs2, Except.ok _) =>
        ⟨fs2, [Strategy.soft], Except.ok { base with videoWithSubtitles := some outPath }⟩
      | (fs2, Except.error _) =>
        match readFS fs2 vp with
        | some content =>
          ⟨writeFileFS fs2 outPath content, [Strategy.soft, Strategy.copy],
            Except.ok { base with videoWithSubtitles := some outPath }⟩
        | none => ⟨fs2, [Strategy.soft, Strategy.copy], Except.error (SubErr.copyFailed vp)⟩
    | SubType.hard =>
      match burnSubtitlesIntoVideo eng fs1 vp subtitlePath outPath with
      | (fs2, Except.ok _) =>
        ⟨fs2, [Strategy.burn], Except.ok { base with videoWithSubtitles := some outPath }⟩
      | (fs2, Except.error _) =>
        match addSoftSubtitles eng fs2 vp subtitlePath outPath with
        | (fs3, Except.ok _) =>
          ⟨fs3, [Strategy.burn, Strategy.soft],
            Except.ok { base with videoWithSubtitles := some outPath }⟩
        | (fs3, Except.error _) =>
          match readFS fs3 vp with
          | some content =>
            ⟨writeFileFS fs3 outPath content, [Strategy.burn, Strategy.soft, Strategy.copy],
              Except.ok { base with videoWithSubtitles := some outPath }⟩
          | none =>
            ⟨fs3, [Strategy.burn, Strategy.soft, Strategy.copy],
              Except.error (SubErr.copyFailed vp)⟩
  | _, _ => ⟨fs1, [], Except.ok base⟩

/-! ## Lemmas about the cue timer -/

theorem splitOn_ne_nil (p : Char → Bool) (l : JStr) : splitOn p l ≠ [] := by
  induction l with
  | nil => simp [splitOn]
  | cons c cs ih =>
    rw [splitOn]
    split
    · simp
    · cases hs : splitOn p cs with
      | nil => exact absurd hs ih
      | cons piece rest => simp

theorem exists_mem_splitOn (p : Char → Bool) (l : JStr) (c : Char)
    (hc : c ∈ l) : ∃ w ∈ splitOn p l, p c = false → c ∈ w := by
  induction l with
  | nil => simp at hc
  | cons a as ih =>
    rw [splitOn]
    by_cases hpa : p a
    · simp only [hpa, if_true]
      rcases List.mem_cons.mp hc with hca | hmem
      · exact ⟨[], List.mem_cons_self _ _,
          fun hfalse => by rw [hca] at hfalse; simp [hfalse] at hpa⟩
      · obtain ⟨w, hw, hcw⟩ := ih hmem
        exact ⟨w, List.mem_cons_of_mem _ hw, hcw⟩
    · simp only [hpa, if_false]
      cases hs : splitOn p as with
      | nil => exact absurd hs (splitOn_ne_nil p as)
      | cons piece rest =>
        rcases List.mem_cons.mp hc with hca | hmem
        · exact ⟨a :: piece, List.mem_cons_self _ _,
            fun _ => by rw [hca]; exact List.mem_cons_self _ _⟩
        · obtain ⟨w, hw, hcw⟩ := ih hmem
          rcases List.mem_cons.mp (hs ▸ hw) with hwp | hwrest
          · exact ⟨a :: piece, List.mem_cons_self _ _,
              fun h => List.mem_cons_of_mem _ (hwp ▸ hcw h)⟩
          · exact ⟨w, List.mem_cons_of_mem _ hwrest, hcw⟩

theorem one_le_countWords (s : JStr) (h : ∃ c ∈ s, isWS c = false) :
    1 ≤ countWords s := by
  obtain ⟨c, hcs, hc⟩ := h
  obtain ⟨w, hw, hcw⟩ := exists_mem_splitOn isWS s c hcs
  have hwne : w ≠ [] := List.ne_nil_of_mem (hcw hc)
  have : w ∈ (splitOn isWS s).filter (fun w => w ≠ []) :=
    List.mem_filter.mpr ⟨hw, by simp [hwne]⟩
  have hpos : 0 < ((splitOn isWS s).filter (fun w => w ≠ [])).length :=
    List.length_pos.mpr (List.ne_nil_of_mem this)
  exact hpos

theorem exists_not_isWS_of_dropWhile_ne_nil (l : JStr)
    (h : l.dropWhile isWS ≠ []) : ∃ c ∈ l.dropWhile isWS, isWS c = false := by
  induction l with
  | nil => simp at h
  | cons a as ih =>
    rw [List.dropWhile_cons] at h ⊢
    by_cases hpa : isWS a = true
    · simp only [hpa, if_true] at h ⊢
      exact ih h
    · simp only [hpa, if_false]
      exact ⟨a, List.mem_cons_self _ _, by simpa using hpa⟩

theorem exists_not_isWS_of_jsTrim_ne_nil (l : JStr) (h : jsTrim l ≠ []) :
    ∃ c ∈ jsTrim l, isWS c = false := by
  unfold jsTrim at h ⊢
  have hy : ((l.dropWhile isWS).reverse.dropWhile isWS) ≠ [] := by
    intro hnil
    exact h (by rw [hnil]; rfl)
  obtain ⟨c, hc, hcw⟩ := exists_not_isWS_of_dropWhile_ne_nil _ hy
  exact ⟨c, List.mem_reverse.mpr hc, hcw⟩

theorem one_le_countWords_of_mem_splitSentences (t : JStr) (s : JStr)
    (h : s ∈ splitSentences t) : 1 ≤ countWords s := by
  unfold splitSentences at h
  have hmem := List.mem_filter.mp h
  obtain ⟨orig, _, rfl⟩ := List.mem_map.mp hmem.1
  have hne : jsTrim orig ≠ [] := by simpa using hmem.2
  exact one_le_countWords _ (exists_not_isWS_of_jsTrim_ne_nil orig hne)

theorem jsMin_le_right (a b : ℚ) : jsMin a b ≤ b := by
  unfold jsMin; split
  · assumption
  · exact le_refl b

theorem lt_jsMin (a b c : ℚ) (h1 : c < a) (h2 : c < b) : c < jsMin a b := by
  unfold jsMin; split <;> assumption

theorem jsMin_nonneg (a b : ℚ) (ha : 0 ≤ a) (hb : 0 ≤ b) : 0 ≤ jsMin a b := by
  unfold jsMin; split <;> assumption

theorem sentenceDuration_pos (s : JStr) (h : 1 ≤ countWords s) :
    0 < ((countWords s : ℚ) / wordsPerMinute) * 60 * 1.2 := by
  have hw : (1 : ℚ) ≤ (countWords s : ℚ) := by exact_mod_cast h
  have : ((countWords s : ℚ) / wordsPerMinute) * 60 * 1.2 = (countWords s : ℚ) * (2/5) := by
    unfold wordsPerMinute; ring
  rw [this]
  nlinarith

theorem smartCues_endTime_le (d : ℚ) (sentences : List JStr) :
    ∀ (t : ℚ), ∀ cue ∈ smartCues d sentences t, cue.endTime ≤ d := by
  induction sentences with
  | nil => intro t cue h; simp [smartCues] at h
  | cons s rest ih =>
    intro t cue h
    rw [smartCues] at h
    rcases List.mem_cons.mp h with rfl | hmem
    · exact jsMin_le_right _ _
    · exact ih _ cue hmem

theorem smartCues_start_sound (d : ℚ) (hd : 0 < d) (sentences : List JStr)
    (hws : ∀ s ∈ sentences, 1 ≤ countWords s) :
    ∀ (t : ℚ), 0 ≤ t → ∀ cue ∈ smartCues d sentences t,
      0 ≤ cue.start ∧ (cue.start < d → cue.start < cue.endTime) := by
  induction sentences with
  | nil => intro t _ cue h; simp [smartCues] at h
  | cons s rest ih =>
    intro t ht cue h
    have hsd : 0 < ((countWords s : ℚ) / wordsPerMinute) * 60 * 1.2 :=
      sentenceDuration_pos s (hws s (List.mem_cons_self _ _))
    rw [smartCues] at h
    rcases List.mem_cons.mp h with rfl | hmem
    · refine ⟨ht, fun hlt => lt_jsMin _ _ _ (by linarith) hlt⟩
    · have hnext : 0 ≤ jsMin (t + ((countWords s : ℚ) / wordsPerMinute) * 60 * 1.2) d + 0.5 := by
        have := jsMin_nonneg (t + ((countWords s : ℚ) / wordsPerMinute) * 60 * 1.2) d
          (by linarith) (le_of_lt hd)
        linarith
      exact ih (fun x hx => hws x (List.mem_cons_of_mem _ hx)) _ hnext cue hmem

theorem smartCues_head_start (d : ℚ) (sentences : List JStr) (u : ℚ) (b : Cue)
    (h : (smartCues d sentences u).get? 0 = some b) : b.start = u := by
  cases sentences with
  | nil => simp [smartCues] at h
  | cons s rest =>
    rw [smartCues] at h
    simp only [List.get?_cons_zero, Option.some.injEq] at h
    rw [← h]

theorem smartCues_gap (d : ℚ) (sentences : List JStr) :
    ∀ (t : ℚ) (i : ℕ) (a b : Cue),
      (smartCues d sentences t).get? i = some a →
      (smartCues d sentences t).get? (i + 1) = some b →
      b.start = a.endTime + 0.5 := by
  induction sentences with
  | nil => intro t i a b ha _; simp [smartCues] at ha
  | cons s rest ih =>
    intro t i a b ha hb
    rw [smartCues] at ha hb
    match i with
    | 0 =>
      simp only [List.get?_cons_zero, Option.some.injEq] at ha
      simp only [List.get?_cons_succ] at hb
      have := smartCues_head_start d rest _ b hb
      rw [this, ← ha]
    | Nat.succ j =>
      simp only [List.get?_cons_succ] at ha hb
      exact ih _ j a b ha hb

theorem smartCues_times_of_wordCounts (d : ℚ) (xs : List JStr) :
    ∀ (ys : List JStr) (t : ℚ), xs.map countWords = ys.map countWords →
      (smartCues d xs t).map (fun c => (c.start, c.endTime)) =
        (smartCues d ys t).map (fun c => (c.start, c.endTime)) := by
  induction xs with
  | nil =>
    intro ys t h
    cases ys with
    | nil => rfl
    | cons y yr => simp at h
  | cons x xr ih =>
    intro ys t h
    cases ys with
    | nil => simp at h
    | cons y yr =>
      simp only [List.map_cons, List.cons.injEq] at h
      obtain ⟨hxy, hrest⟩ := h
      rw [smartCues, smartCues]
      simp only [List.map_cons, hxy]
      exact congrArg _ (ih yr _ hrest)

/-! ## Lemmas relating the loop to cue-sequence rendering -/

theorem smartLoop_eq_renderCues (fmt : SubFormat) (d : ℚ) (sentences : List JStr) :
    ∀ (i : ℕ) (t : ℚ),
      smartLoop fmt d sentences i t = renderCues fmt i (smartCues d sentences t) := by
  induction sentences with
  | nil => intro i t; rfl
  | cons s rest ih =>
    intro i t
    rw [smartLoop, smartCues, renderCues]
    simp only [cueBlock, List.append_assoc]
    rw [ih]

theorem createSmartSubtitles_eq_render (script : JStr) (d : ℚ) (fmt : SubFormat) :
    createSmartSubtitles script d fmt =
      header fmt ++ renderCues fmt 0 (smartCues d (splitSentences script) 0) := by
  unfold createSmartSubtitles
  by_cases h : splitSentences script = []
  · rw [h]
    cases fmt <;> simp [smartCues, renderCues, header]
  · simp only [h, if_false]
    rw [smartLoop_eq_renderCues]

theorem cueBlock_srt_eq (i : ℕ) (cue : Cue) :
    cueBlock SubFormat.srt i cue =
      intToJStr ((i : ℤ) + 1) ++ ['\n'] ++ tsLine ',' cue ++ ['\n'] ++
        jsTrim cue.text ++ ['\n', '\n'] := by
  simp [cueBlock, tsLine, formatTime, List.append_assoc]

theorem cueBlock_vtt_eq (i : ℕ) (cue : Cue) :
    cueBlock SubFormat.vtt i cue =
      tsLine '.' cue ++ ['\n'] ++ jsTrim cue.text ++ ['\n', '\n'] := by
  simp [cueBlock, tsLine, formatTime, List.append_assoc]

/-! ## Lemmas about the filesystem model -/

theorem existsSync_writeFileFS_of (fs : FS) (p q : FPath) (c : JStr)
    (h : existsSync fs p = true) : existsSync (writeFileFS fs q c) p = true := by
  by_cases hpq : p = q
  · subst hpq
    simp [existsSync, writeFileFS, List.lookup_cons]
  · have hbeq : (p == q) = false := beq_eq_false_iff_ne.mpr hpq
    simpa [existsSync, writeFileFS, List.lookup_cons, hbeq] using h

theorem existsSync_writeFileFS_self (fs : FS) (q : FPath) (c : JStr) :
    existsSync (writeFileFS fs q c) q = true := by
  simp [existsSync, writeFileFS, List.lookup_cons]

theorem existsSync_writeFileFS_ne_false (fs : FS) (p q : FPath) (c : JStr)
    (h : existsSync fs p = false) (hne : p ≠ q) :
    existsSync (writeFileFS fs q c) p = false := by
  have hbeq : (p == q) = false := beq_eq_false_iff_ne.mpr hne
  simpa [existsSync, writeFileFS, List.lookup_cons, hbeq] using h

theorem readFS_writeFileFS_self (fs : FS) (q : FPath) (c : JStr) :
    readFS (writeFileFS fs q c) q = some c := by
  simp [readFS, writeFileFS, List.lookup_cons]

theorem readFS_writeFileFS_ne (fs : FS) (p q : FPath) (c : JStr) (hne : p ≠ q) :
    readFS (writeFileFS fs q c) p = readFS fs p := by
  have hbeq : (p == q) = false := beq_eq_false_iff_ne.mpr hne
  simp [readFS, writeFileFS, List.lookup_cons, hbeq]

theorem readFS_isSome_of_existsSync (fs : FS) (p : FPath)
    (h : existsSync fs p = true) : ∃ c, readFS fs p = some c := by
  unfold existsSync at h
  exact Option.isSome_iff_exists.mp h

theorem readFS_none_of_not_existsSync (fs : FS) (p : FPath)
    (h : existsSync fs p = false) : readFS fs p = none := by
  unfold existsSync at h
  unfold readFS
  cases hl : fs.lookup p with
  | none => rfl
  | some c => rw [hl] at h; simp at h

/-! ## Claims about the cue timer -/

/-- Claim C2: for the script `"He runs. He jumps! Will he make it?"` and video
duration 10 s, the cue timer produces exactly three cues with texts
`"He runs"`, `"He jumps"`, `"Will he make it"`, word counts 2, 2, 4, and
(start, end) times (0, 0.8), (1.3, 2.1), (2.6, 4.2) seconds. -/
theorem C2_example_scenario :
    splitSentences "He runs. He jumps! Will he make it?".toList =
        ["He runs".toList, "He jumps".toList, "Will he make it".toList] ∧
      (splitSentences "He runs. He jumps! Will he make it?".toList).map countWords =
        [2, 2, 4] ∧
      smartCues 10 (splitSentences "He runs. He jumps! Will he make it?".toList) 0 =
        [⟨0, 0.8, "He runs".toList⟩, ⟨1.3, 2.1, "He jumps".toList⟩,
          ⟨2.6, 4.2, "Will he make it".toList⟩] := by
  refine ⟨?_, ?_, ?_⟩ <;> with_unfolding_all decide

/-- Claim C3 fails as stated: for the script `"A. B. C."` and video duration 1,
the third emitted cue has start 1.5 and end 1, so `start < end` is violated
(the start is not clamped, only the end is). -/
theorem C3_counterexample :
    (0 : ℚ) < 1 ∧
      (smartCues 1 (splitSentences "A. B. C.".toList) 0).get? 2 =
        some ⟨1.5, 1, "C".toList⟩ ∧
      ¬ ((1.5 : ℚ) < 1) := by
  refine ⟨?_, ?_, ?_⟩ <;> with_unfolding_all decide

/-- Claim C3, amended: for every script and every videoDuration > 0, every cue
has a non-negative start, and `start < end` holds for every cue whose start
lies below the video duration; once the running cursor passes the duration,
a cue's start may equal or exceed its (clamped) end. -/
theorem C3_amended_start_invariant (script : JStr) (d : ℚ) (hd : 0 < d) :
    ∀ cue ∈ smartCues d (splitSentences script) 0,
      0 ≤ cue.start ∧ (cue.start < d → cue.start < cue.endTime) :=
  smartCues_start_sound d hd (splitSentences script)
    (fun s hs => one_le_countWords_of_mem_splitSentences script s hs) 0 le_rfl

/-- Witness for the amended claim C3 at a concrete input. -/
theorem C3_amended_witness :
    (0 : ℚ) < 10 ∧
      ∀ cue ∈ smartCues 10 (splitSentences "He runs. He jumps!".toList) 0,
        0 ≤ cue.start ∧ (cue.start < 10 → cue.start < cue.endTime) :=
  ⟨by norm_num, C3_amended_start_invariant "He runs. He jumps!".toList 10 (by norm_num)⟩

/-- Claim C4: for every script and every videoDuration > 0, every generated
cue has `end ≤ videoDuration` — a cue's end is clamped to the video duration. -/
theorem C4_duration_containment (script : JStr) (d : ℚ) (_hd : 0 < d) :
    ∀ cue ∈ smartCues d (splitSentences script) 0, cue.endTime ≤ d :=
  fun cue h => smartCues_endTime_le d (splitSentences script) 0 cue h

/-- Witness for claim C4 at a concrete input. -/
theorem C4_witness :
    (0 : ℚ) < 10 ∧
      ∀ cue ∈ smartCues 10 (splitSentences "He runs. He jumps!".toList) 0,
        cue.endTime ≤ 10 :=
  ⟨by norm_num, C4_duration_containment "He runs. He jumps!".toList 10 (by norm_num)⟩

/-- Claim C5: consecutive cues never overlap — the next cue's start equals the
previous cue's end plus the fixed 0.5-second gap, hence is at least the
previous end. -/
theorem C5_non_overlap (script : JStr) (d : ℚ) (_hd : 0 < d) (i : ℕ) (a b : Cue)
    (ha : (smartCues d (splitSentences script) 0).get? i = some a)
    (hb : (smartCues d (splitSentences script) 0).get? (i + 1) = some b) :
    b.start = a.endTime + 0.5 ∧ a.endTime ≤ b.start := by
  have h := smartCues_gap d (splitSentences script) 0 i a b ha hb
  exact ⟨h, by rw [h]; linarith⟩

/-- Witness for claim C5 at a concrete input. -/
theorem C5_witness :
    (0 : ℚ) < 10 ∧
      (smartCues 10 (splitSentences "Hi there. Bye.".toList) 0).get? 0 =
        some ⟨0, 0.8, "Hi there".toList⟩ ∧
      (smartCues 10 (splitSentences "Hi there. Bye.".toList) 0).get? 1 =
        some ⟨1.3, 1.7, "Bye".toList⟩ ∧
      ((1.3 : ℚ) = 0.8 + 0.5 ∧ (0.8 : ℚ) ≤ 1.3) :=
  ⟨by norm_num, by with_unfolding_all decide, by with_unfolding_all decide,
    C5_non_overlap "Hi there. Bye.".toList 10 (by norm_num) 0
      ⟨0, 0.8, "Hi there".toList⟩ ⟨1.3, 1.7, "Bye".toList⟩
      (by with_unfolding_all decide) (by with_unfolding_all decide)⟩

/-- Claim C6: a script whose sentence split leaves no non-empty trimmed
segment yields the empty string for srt and exactly `"WEBVTT\n\n"` for vtt. -/
theorem C6_empty_script (script : JStr) (d : ℚ) (h : splitSentences script = []) :
    createSmartSubtitles script d SubFormat.srt = [] ∧
      createSmartSubtitles script d SubFormat.vtt = "WEBVTT\n\n".toList := by
  unfold createSmartSubtitles
  rw [h]
  exact ⟨rfl, rfl⟩

/-- Witness for claim C6 at concrete inputs. -/
theorem C6_witness :
    splitSentences " .?! . ".toList = [] ∧
      (createSmartSubtitles " .?! . ".toList 5 SubFormat.srt = [] ∧
        createSmartSubtitles " .?! . ".toList 5 SubFormat.vtt = "WEBVTT\n\n".toList) :=
  ⟨by with_unfolding_all decide,
    C6_empty_script " .?! . ".toList 5 (by with_unfolding_all decide)⟩

/-- Claim C9: the SRT and VTT outputs encode the same cue sequence — both are
renderings of `smartCues` of the same script: the srt output is the
concatenation of per-cue blocks, the vtt output is the `"WEBVTT\n\n"` header
followed by per-cue blocks, where an srt block is the 1-based index line,
the comma-separated timestamp line and the text, and a vtt block is the
dot-separated timestamp line and the text (no index line). -/
theorem C9_srt_vtt_same_cues (script : JStr) (d : ℚ) :
    createSmartSubtitles script d SubFormat.srt =
        renderCues SubFormat.srt 0 (smartCues d (splitSentences script) 0) ∧
      createSmartSubtitles script d SubFormat.vtt =
        "WEBVTT\n\n".toList ++ renderCues SubFormat.vtt 0 (smartCues d (splitSentences script) 0) ∧
      (∀ (i : ℕ) (cue : Cue), cueBlock SubFormat.srt i cue =
        intToJStr ((i : ℤ) + 1) ++ ['\n'] ++ tsLine ',' cue ++ ['\n'] ++
          jsTrim cue.text ++ ['\n', '\n']) ∧
      (∀ (i : ℕ) (cue : Cue), cueBlock SubFormat.vtt i cue =
        tsLine '.' cue ++ ['\n'] ++ jsTrim cue.text ++ ['\n', '\n']) := by
  refine ⟨?_, ?_, cueBlock_srt_eq, cueBlock_vtt_eq⟩
  · have h := createSmartSubtitles_eq_render script d SubFormat.srt
    simpa [header] using h
  · have h := createSmartSubtitles_eq_render script d SubFormat.vtt
    simpa [header] using h

/-- Claim C10: cue timing depends on sentence texts only through their word
counts — scripts whose sentence lists have pointwise equal word counts get
pointwise equal (start, end) times, hence identical timestamp lines, for
the same video duration; only the text lines may differ. -/
theorem C10_timing_from_wordcounts (a b : JStr) (d : ℚ) (sep : Char)
    (h : (splitSentences a).map countWords = (splitSentences b).map countWords) :
    (smartCues d (splitSentences a) 0).map (fun c => (c.start, c.endTime)) =
        (smartCues d (splitSentences b) 0).map (fun c => (c.start, c.endTime)) ∧
      (smartCues d (splitSentences a) 0).map (tsLine sep) =
        (smartCues d (splitSentences b) 0).map (tsLine sep) := by
  have h1 := smartCues_times_of_wordCounts d (splitSentences a) (splitSentences b) 0 h
  refine ⟨h1, ?_⟩
  have hmap : ∀ (l : List Cue), l.map (tsLine sep) =
      (l.map (fun c => (c.start, c.endTime))).map
        (fun p => formatTimeSep sep p.1 ++ " --> ".toList ++ formatTimeSep sep p.2) := by
    intro l
    rw [List.map_map]
    rfl
  rw [hmap, hmap, h1]

/-- Witness for claim C10 at concrete inputs with equal word counts. -/
theorem C10_witness :
    ((splitSentences "He runs. He jumps!".toList).map countWords =
        (splitSentences "Go far. Be cool!".toList).map countWords) ∧
      ((smartCues 7 (splitSentences "He runs. He jumps!".toList) 0).map
            (fun c => (c.start, c.endTime)) =
          (smartCues 7 (splitSentences "Go far. Be cool!".toList) 0).map
            (fun c => (c.start, c.endTime)) ∧
        (smartCues 7 (splitSentences "He runs. He jumps!".toList) 0).map (tsLine ',') =
          (smartCues 7 (splitSentences "Go far. Be cool!".toList) 0).map (tsLine ',')) :=
  ⟨by with_unfolding_all decide,
    C10_timing_from_wordcounts "He runs. He jumps!".toList "Go far. Be cool!".toList 7 ','
      (by with_unfolding_all decide)⟩

/-! ## Claims about the muxing layer -/

/-- Claim C7: in hard mode the fallback chain tries burn-in first, attempts
the soft track only if the burn fails, and copies the source only if both
fail; when the burn fails but the soft track succeeds the call resolves
successfully with `videoWithSubtitles` set to the output path and no
`degraded` flag. -/
theorem C7_hard_first_success (eng : Engine) (fs : FS) (script : JStr) (d : ℚ)
    (dir vid : FPath) (fmt : SubFormat) (vp : FPath)
    (hv : existsSync fs vp = true) :
    (processSubtitles eng fs script d dir vid fmt true (some vp) SubType.hard).attempts =
        (if eng.burnOk then [Strategy.burn]
          else if eng.softOk then [Strategy.burn, Strategy.soft]
          else [Strategy.burn, Strategy.soft, Strategy.copy]) ∧
      (eng.burnOk = false → eng.softOk = true →
        (processSubtitles eng fs script d dir vid fmt true (some vp) SubType.hard).result =
          Except.ok (⟨subtitleFilePath dir vid fmt,
            createSmartSubtitles script d fmt, fmt,
            some (outputVideoFilePath dir vid), none⟩ : SubtitleResult)) := by
  have hv1 : existsSync (writeFileFS fs (subtitleFilePath dir vid fmt)
      (createSmartSubtitles script d fmt)) vp = true :=
    existsSync_writeFileFS_of fs vp _ _ hv
  have hs1 : existsSync (writeFileFS fs (subtitleFilePath dir vid fmt)
      (createSmartSubtitles script d fmt)) (subtitleFilePath dir vid fmt) = true :=
    existsSync_writeFileFS_self fs _ _
  cases hb : eng.burnOk with
  | true =>
    constructor
    · simp [processSubtitles, burnSubtitlesIntoVideo, hv1, hs1, hb]
    · intro hbf _
      exact absurd hbf (by simp)
  | false =>
    cases hso : eng.softOk with
    | true =>
      constructor
      · simp [processSubtitles, burnSubtitlesIntoVideo, addSoftSubtitles, hv1, hs1, hb, hso]
      · intro _ _
        simp [processSubtitles, burnSubtitlesIntoVideo, addSoftSubtitles, hv1, hs1, hb, hso]
    | false =>
      obtain ⟨content, hc⟩ := readFS_isSome_of_existsSync _ _ hv1
      constructor
      · simp [processSubtitles, burnSubtitlesIntoVideo, addSoftSubtitles, hv1, hs1, hb, hso, hc]
      · intro _ hsf
        exact absurd hsf (by simp)

/-- Witness for claim C7: an engine that fails burn-in but succeeds on the
soft track, over a filesystem containing the source video. -/
theorem C7_witness :
    existsSync [("v.mp4", "VIDEO".toList)] "v.mp4" = true ∧
      (processSubtitles ⟨false, true, "BURN".toList, "SOFT".toList⟩
          [("v.mp4", "VIDEO".toList)] "Hi.".toList 10 "out" "vid1" SubFormat.srt
          true (some "v.mp4") SubType.hard).attempts = [Strategy.burn, Strategy.soft] ∧
      (processSubtitles ⟨false, true, "BURN".toList, "SOFT".toList⟩
          [("v.mp4", "VIDEO".toList)] "Hi.".toList 10 "out" "vid1" SubFormat.srt
          true (some "v.mp4") SubType.hard).result =
        Except.ok (⟨subtitleFilePath "out" "vid1" SubFormat.srt,
            createSmartSubtitles "Hi.".toList 10 SubFormat.srt, SubFormat.srt,
            some (outputVideoFilePath "out" "vid1"), none⟩ : SubtitleResult) := by
  refine ⟨by with_unfolding_all decide, ?_, ?_⟩
  · exact ((C7_hard_first_success ⟨false, true, "BURN".toList, "SOFT".toList⟩
      [("v.mp4", "VIDEO".toList)] "Hi.".toList 10 "out" "vid1" SubFormat.srt "v.mp4"
      (by with_unfolding_all decide)).1).trans (by decide)
  · exact (C7_hard_first_success ⟨false, true, "BURN".toList, "SOFT".toList⟩
      [("v.mp4", "VIDEO".toList)] "Hi.".toList 10 "out" "vid1" SubFormat.srt "v.mp4"
      (by with_unfolding_all decide)).2 rfl rfl

/-- Claim C1 fails as stated: with an engine that fails both modes over a
filesystem containing the source video, `processSubtitles` does copy the
source to the output path, but the returned result carries NO `degraded`
flag (the field is absent, i.e. `none`, not `some true`): the degraded
outcome is reported exactly like a success. -/
theorem C1_counterexample :
    (processSubtitles ⟨false, false, [], []⟩ [("v.mp4", "VIDEO".toList)]
          "Hi.".toList 10 "out" "vid1" SubFormat.srt true (some "v.mp4")
          SubType.hard).result.map SubtitleResult.degraded = Except.ok none ∧
      (Except.ok (none : Option Bool) : Except SubErr (Option Bool)) ≠
        Except.ok (some true) ∧
      readFS (processSubtitles ⟨false, false, [], []⟩ [("v.mp4", "VIDEO".toList)]
          "Hi.".toList 10 "out" "vid1" SubFormat.srt true (some "v.mp4")
          SubType.hard).fs (outputVideoFilePath "out" "vid1") = some "VIDEO".toList := by
  refine ⟨by with_unfolding_all rfl, by simp, by with_unfolding_all rfl⟩

/-- Claim C1, amended: when both rendering modes fail, `processSubtitles`
copies the original source video verbatim to the output path and resolves
successfully with `videoWithSubtitles` set to the output path and no
`degraded` flag — the total-failure outcome is indistinguishable from a
success in the returned result. -/
theorem C1_amended_silent_copy (eng : Engine) (fs : FS) (script : JStr) (d : ℚ)
    (dir vid : FPath) (fmt : SubFormat) (vp : FPath)
    (hb : eng.burnOk = false) (hso : eng.softOk = false)
    (hv : existsSync fs vp = true) (hne : vp ≠ subtitleFilePath dir vid fmt) :
    (processSubtitles eng fs script d dir vid fmt true (some vp) SubType.hard).attempts =
        [Strategy.burn, Strategy.soft, Strategy.copy] ∧
      (processSubtitles eng fs script d dir vid fmt true (some vp) SubType.hard).result =
        Except.ok (⟨subtitleFilePath dir vid fmt,
            createSmartSubtitles script d fmt, fmt,
            some (outputVideoFilePath dir vid), none⟩ : SubtitleResult) ∧
      readFS (processSubtitles eng fs script d dir vid fmt true (some vp) SubType.hard).fs
          (outputVideoFilePath dir vid) = readFS fs vp := by
  have hv1 : existsSync (writeFileFS fs (subtitleFilePath dir vid fmt)
      (createSmartSubtitles script d fmt)) vp = true :=
    existsSync_writeFileFS_of fs vp _ _ hv
  have hs1 : existsSync (writeFileFS fs (subtitleFilePath dir vid fmt)
      (createSmartSubtitles script d fmt)) (subtitleFilePath dir vid fmt) = true :=
    existsSync_writeFileFS_self fs _ _
  have hr1 : readFS (writeFileFS fs (subtitleFilePath dir vid fmt)
      (createSmartSubtitles script d fmt)) vp = readFS fs vp :=
    readFS_writeFileFS_ne fs vp _ _ hne
  obtain ⟨content, hc⟩ := readFS_isSome_of_existsSync fs vp hv
  have hc1 : readFS (writeFileFS fs (subtitleFilePath dir vid fmt)
      (createSmartSubtitles script d fmt)) vp = some content := hr1.trans hc
  refine ⟨?_, ?_, ?_⟩
  · simp [processSubtitles, burnSubtitlesIntoVideo, addSoftSubtitles, hv1, hs1, hb, hso, hc1]
  · simp [processSubtitles, burnSubtitlesIntoVideo, addSoftSubtitles, hv1, hs1, hb, hso, hc1]
  · simp [processSubtitles, burnSubtitlesIntoVideo, addSoftSubtitles, hv1, hs1, hb, hso, hc1,
      readFS_writeFileFS_self, hc]

/-- Witness for the amended claim C1 at a concrete input. -/
theorem C1_amended_witness :
    ((⟨false, false, [], []⟩ : Engine).burnOk = false ∧
        (⟨false, false, [], []⟩ : Engine).softOk = false ∧
        existsSync [("v.mp4", "VIDEO".toList)] "v.mp4" = true ∧
        "v.mp4" ≠ subtitleFilePath "out" "vid1" SubFormat.srt) ∧
      ((processSubtitles ⟨false, false, [], []⟩ [("v.mp4", "VIDEO".toList)]
            "Hi.".toList 10 "out" "vid1" SubFormat.srt true (some "v.mp4")
            SubType.hard).attempts = [Strategy.burn, Strategy.soft, Strategy.copy] ∧
        (processSubtitles ⟨false, false, [], []⟩ [("v.mp4", "VIDEO".toList)]
            "Hi.".toList 10 "out" "vid1" SubFormat.srt true (some "v.mp4")
            SubType.hard).result =
          Except.ok (⟨subtitleFilePath "out" "vid1" SubFormat.srt,
            createSmartSubtitles "Hi.".toList 10 SubFormat.srt, SubFormat.srt,
            some (outputVideoFilePath "out" "vid1"), none⟩ : SubtitleResult) ∧
        readFS (processSubtitles ⟨false, false, [], []⟩ [("v.mp4", "VIDEO".toList)]
            "Hi.".toList 10 "out" "vid1" SubFormat.srt true (some "v.mp4")
            SubType.hard).fs (outputVideoFilePath "out" "vid1") =
          readFS [("v.mp4", "VIDEO".toList)] "v.mp4") :=
  ⟨⟨rfl, rfl, by with_unfolding_all decide, by with_unfolding_all decide⟩,
    C1_amended_silent_copy ⟨false, false, [], []⟩ [("v.mp4", "VIDEO".toList)]
      "Hi.".toList 10 "out" "vid1" SubFormat.srt "v.mp4" rfl rfl
      (by with_unfolding_all decide) (by with_unfolding_all decide)⟩

/-- Claim C8 fails as stated: when the source video path is missing, the
muxing invocation does not fail immediately without retries — burn-in's
validation rejects, but the fallback chain still attempts the soft-track
strategy and then the final copy, which is what ultimately fails (with a
file-copy error, after every strategy was tried). -/
theorem C8_counterexample :
    existsSync (writeFileFS ([] : FS) (subtitleFilePath "out" "vid1" SubFormat.srt)
        (createSmartSubtitles "Hi.".toList 10 SubFormat.srt)) "missing.mp4" = false ∧
      (processSubtitles ⟨true, true, "BURN".toList, "SOFT".toList⟩ ([] : FS)
          "Hi.".toList 10 "out" "vid1" SubFormat.srt true (some "missing.mp4")
          SubType.hard).attempts = [Strategy.burn, Strategy.soft, Strategy.copy] ∧
      Strategy.soft ∈ (processSubtitles ⟨true, true, "BURN".toList, "SOFT".toList⟩ ([] : FS)
          "Hi.".toList 10 "out" "vid1" SubFormat.srt true (some "missing.mp4")
          SubType.hard).attempts ∧
      (processSubtitles ⟨true, true, "BURN".toList, "SOFT".toList⟩ ([] : FS)
          "Hi.".toList 10 "out" "vid1" SubFormat.srt true (some "missing.mp4")
          SubType.hard).result = Except.error (SubErr.copyFailed "missing.mp4") := by
  refine ⟨by with_unfolding_all decide, by with_unfolding_all rfl, ?_, by with_unfolding_all rfl⟩
  have h : (processSubtitles ⟨true, true, "BURN".toList, "SOFT".toList⟩ ([] : FS)
      "Hi.".toList 10 "out" "vid1" SubFormat.srt true (some "missing.mp4")
      SubType.hard).attempts = [Strategy.burn, Strategy.soft, Strategy.copy] := by
    with_unfolding_all rfl
  rw [h]
  simp

/-- Claim C8, amended: each rendering primitive validates both input paths at
its start and rejects immediately with a missing-input error, leaving the
filesystem untouched (the engine is never invoked); the orchestrating
fallback chain, however, treats such a rejection like any other failure, so
with a missing source video it still attempts the soft strategy and the
final copy before the invocation fails with a file-copy error. -/
theorem C8_amended_validation (eng : Engine) (fs : FS) (script : JStr) (d : ℚ)
    (dir vid : FPath) (fmt : SubFormat) (vp s out v2 s2 : FPath)
    (hv : existsSync fs vp = false) (hne : vp ≠ subtitleFilePath dir vid fmt)
    (hv2 : existsSync fs v2 = true) (hs2 : existsSync fs s2 = false) :
    burnSubtitlesIntoVideo eng fs vp s out = (fs, Except.error (SubErr.videoNotFound vp)) ∧
      addSoftSubtitles eng fs vp s out = (fs, Except.error (SubErr.videoNotFound vp)) ∧
      burnSubtitlesIntoVideo eng fs v2 s2 out = (fs, Except.error (SubErr.subtitleNotFound s2)) ∧
      addSoftSubtitles eng fs v2 s2 out = (fs, Except.error (SubErr.subtitleNotFound s2)) ∧
      (processSubtitles eng fs script d dir vid fmt true (some vp) SubType.hard).attempts =
        [Strategy.burn, Strategy.soft, Strategy.copy] ∧
      (processSubtitles eng fs script d dir vid fmt true (some vp) SubType.hard).result =
        Except.error (SubErr.copyFailed vp) := by
  have hv1 : existsSync (writeFileFS fs (subtitleFilePath dir vid fmt)
      (createSmartSubtitles script d fmt)) vp = false :=
    existsSync_writeFileFS_ne_false fs vp _ _ hv hne
  have hn1 : readFS (writeFileFS fs (subtitleFilePath dir vid fmt)
      (createSmartSubtitles script d fmt)) vp = none :=
    readFS_none_of_not_existsSync _ _ hv1
  refine ⟨?_, ?_, ?_, ?_, ?_, ?_⟩
  · simp [burnSubtitlesIntoVideo, hv]
  · simp [addSoftSubtitles, hv]
  · simp [burnSubtitlesIntoVideo, hv2, hs2]
  · simp [addSoftSubtitles, hv2, hs2]
  · simp [processSubtitles, burnSubtitlesIntoVideo, addSoftSubtitles, hv1, hn1]
  · simp [processSubtitles, burnSubtitlesIntoVideo, addSoftSubtitles, hv1, hn1]

/-- Witness for the amended claim C8 at concrete inputs. -/
theorem C8_amended_witness :
    (existsSync [("v.mp4", "VIDEO".toList)] "missing.mp4" = false ∧
        "missing.mp4" ≠ subtitleFilePath "out" "vid1" SubFormat.srt ∧
        existsSync [("v.mp4", "VIDEO".toList)] "v.mp4" = true ∧
        existsSync [("v.mp4", "VIDEO".toList)] "nosub.srt" = false) ∧
      (burnSubtitlesIntoVideo ⟨true, true, "B".toList, "S".toList⟩
          [("v.mp4", "VIDEO".toList)] "missing.mp4" "sub.srt" "o.mp4" =
        ([("v.mp4", "VIDEO".toList)], Except.error (SubErr.videoNotFound "missing.mp4")) ∧
        addSoftSubtitles ⟨true, true, "B".toList, "S".toList⟩
          [("v.mp4", "VIDEO".toList)] "missing.mp4" "sub.srt" "o.mp4" =
        ([("v.mp4", "VIDEO".toList)], Except.error (SubErr.videoNotFound "missing.mp4")) ∧
        burnSubtitlesIntoVideo ⟨true, true, "B".toList, "S".toList⟩
          [("v.mp4", "VIDEO".toList)] "v.mp4" "nosub.srt" "o.mp4" =
        ([("v.mp4", "VIDEO".toList)], Except.error (SubErr.subtitleNotFound "nosub.srt")) ∧
        addSoftSubtitles ⟨true, true, "B".toList, "S".toList⟩
          [("v.mp4", "VIDEO".toList)] "v.mp4" "nosub.srt" "o.mp4" =
        ([("v.mp4", "VIDEO".toList)], Except.error (SubErr.subtitleNotFound "nosub.srt")) ∧
        (processSubtitles ⟨true, true, "B".toList, "S".toList⟩
            [("v.mp4", "VIDEO".toList)] "Hi.".toList 10 "out" "vid1" SubFormat.srt
            true (some "missing.mp4") SubType.hard).attempts =
          [Strategy.burn, Strategy.soft, Strategy.copy] ∧
        (processSubtitles ⟨true, true, "B".toList, "S".toList⟩
            [("v.mp4", "VIDEO".toList)] "Hi.".toList 10 "out" "vid1" SubFormat.srt
            true (some "missing.mp4") SubType.hard).result =
          Except.error (SubErr.copyFailed "missing.mp4")) :=
  ⟨⟨by with_unfolding_all decide, by with_unfolding_all decide,
      by with_unfolding_all decide, by with_unfolding_all decide⟩,
    C8_amended_validation ⟨true, true, "B".toList, "S".toList⟩
      [("v.mp4", "VIDEO".toList)] "Hi.".toList 10 "out" "vid1" SubFormat.srt
      "missing.mp4" "sub.srt" "o.mp4" "v.mp4" "nosub.srt"
      (by with_unfolding_all decide) (by with_unfolding_all decide)
      (by with_unfolding_all decide) (by with_unfolding_all decide)⟩

end BrainrotAI
